import Mathlib

/-!
Verification of the audio-noise RNG password generator (`script.js`).

The entropy pipeline of `AudioRNG.processSamples` is embedded as pure
functions over `Nat` and `List Nat`:

* `bitsToUint8`       — the `bitsToUint8` utility (MSB-first bit packing);
* `vnEmit`/`vnConsume`— the Von Neumann pairing logic of the inner loop
                        (lines 639-645), as a stream function carrying the
                        `rawBitBuffer` state;
* `RNGState`/`processBit`/`processSamples`
                      — the whole per-sample pipeline: raw bit push,
                        Von Neumann pairing, byte assembly, 1000-byte
                        batching and digest append.  The SHA-256 digest
                        (`sha256String`, a Web-Crypto call) is a parameter
                        `sha : List Nat → List Nat`; the theorems that need
                        it assume only that every digest has 32 bytes.

The visualization (`VisualizationManager.drawBitMatrix` and helpers) and
the three consumers (`PasswordGenerator.generatePassword`,
`RandomNumberGenerator.generateNumbers`, `FileGenerator.generateFile`)
are embedded further below.
-/

namespace RNG

/-- `bitsToUint8` (script.js lines 10-16): `value = (value << 1) | bits[i]`
folded over the bit array. -/
def bitsToUint8 (bits : List Nat) : Nat :=
  bits.foldl (fun value b => (value <<< 1) ||| b) 0

/-- The Von Neumann emission rule (script.js lines 643-645): pair (0,1)
emits 0, pair (1,0) emits 1, (0,0) and (1,1) emit nothing. -/
def vnEmit (b1 b2 : Nat) : List Nat :=
  if b1 = 0 ∧ b2 = 1 then [0]
  else if b1 = 1 ∧ b2 = 0 then [1]
  else []

/-- The Von Neumann extractor of `processSamples` in isolation: push each
incoming bit onto `rawBitBuffer`; whenever the buffer holds at least two
bits, shift the first two off and apply `vnEmit`.  Returns the final
`rawBitBuffer` together with the emitted debiased bits, in order. -/
def vnConsume : List Nat → List Nat → List Nat × List Nat
  | buf, [] => (buf, [])
  | buf, bit :: rest =>
      let raw := buf ++ [bit]
      if 2 ≤ raw.length then
        let r := vnConsume (raw.drop 2) rest
        (r.1, vnEmit (raw.getD 0 0) (raw.getD 1 0) ++ r.2)
      else
        vnConsume raw rest

/-- Flattens a list of bit pairs into the bit stream that presents them
in arrival order. -/
def pairsToBits : List (Nat × Nat) → List Nat
  | [] => []
  | (a, b) :: ps => a :: b :: pairsToBits ps

/-- Output of the Von Neumann rule on one pair. -/
def vnPairOut (p : Nat × Nat) : List Nat := vnEmit p.1 p.2

/-- The mutable buffers of `AudioRNG` that the sample-processing loop
touches (script.js lines 500-503). -/
structure RNGState where
  rawBitBuffer : List Nat
  finalBitBuffer : List Nat
  collectedNumbers : List Nat
  uintArray : List Nat
  deriving DecidableEq, Repr

/-- The body of `processSamples` that runs once a Von Neumann pair
(b1, b2) has been shifted off `rawBitBuffer` (script.js lines 643-673):
push the emitted bit (if any) onto `finalBitBuffer`; when that buffer
reaches 8 bits, pack a byte onto `collectedNumbers`; when 1000 bytes have
been collected, hash the first 1000 of them and append the digest to
`uintArray`. -/
def processPair (sha : List Nat → List Nat) (s : RNGState) (b1 b2 : Nat) :
    RNGState :=
  let final := s.finalBitBuffer ++ vnEmit b1 b2
  if final.length = 8 then
    let collected := s.collectedNumbers ++ [bitsToUint8 final]
    if 1000 ≤ collected.length then
      { s with finalBitBuffer := [], collectedNumbers := [],
               uintArray := s.uintArray ++ sha (collected.take 1000) }
    else
      { s with finalBitBuffer := [], collectedNumbers := collected }
  else
    { s with finalBitBuffer := final }

/-- One iteration of the `processSamples` loop for a single raw bit
(script.js lines 634-675): push the bit onto `rawBitBuffer`; if the buffer
now holds at least two bits, shift the first two off and process the pair. -/
def processBit (sha : List Nat → List Nat) (s : RNGState) (bit : Nat) :
    RNGState :=
  let raw := s.rawBitBuffer ++ [bit]
  if 2 ≤ raw.length then
    processPair sha { s with rawBitBuffer := raw.drop 2 }
      (raw.getD 0 0) (raw.getD 1 0)
  else
    { s with rawBitBuffer := raw }

/-- `AudioRNG.processSamples` (script.js lines 633-681): each sample
contributes its least-significant bit to the pipeline. -/
def processSamples (sha : List Nat → List Nat) (s : RNGState)
    (data : List Nat) : RNGState :=
  data.foldl (fun st sample => processBit sha st (sample &&& 1)) s

/-- The buffers as `AudioRNG`'s constructor creates them (script.js
lines 500-503): all empty. -/
def initialRNGState : RNGState :=
  { rawBitBuffer := [], finalBitBuffer := [], collectedNumbers := [],
    uintArray := [] }

theorem vnConsume_pairs (ps : List (Nat × Nat)) :
    vnConsume [] (pairsToBits ps) = ([], (ps.map vnPairOut).flatten) := by
  induction ps with
  | nil => simp [vnConsume, pairsToBits]
  | cons p ps ih =>
      obtain ⟨a, b⟩ := p
      simp [pairsToBits, vnConsume, vnPairOut, ih]

/-- C1: starting from an empty carry, the Von Neumann extractor pairs the
raw bits non-overlapping in arrival order, emitting 0 for (0,1), 1 for
(1,0) and nothing for (0,0) or (1,1); in particular the raw bits
[0,1,1,0,1,0,0,1] produce exactly the debiased output [0,1,1,0]. -/
theorem vonNeumann_pairing :
    (∀ ps : List (Nat × Nat),
      vnConsume [] (pairsToBits ps) = ([], (ps.map vnPairOut).flatten)) ∧
    (vnConsume [] [0, 1, 1, 0, 1, 0, 0, 1]).2 = [0, 1, 1, 0] := by
  refine ⟨vnConsume_pairs, ?_⟩
  decide

theorem vnConsume_append (xs : List Nat) :
    ∀ (buf : List Nat) (ys : List Nat),
      vnConsume buf (xs ++ ys) =
        ((vnConsume (vnConsume buf xs).1 ys).1,
         (vnConsume buf xs).2 ++ (vnConsume (vnConsume buf xs).1 ys).2) := by
  induction xs with
  | nil => intro buf ys; simp [vnConsume]
  | cons bit xs ih =>
      intro buf ys
      by_cases h : 1 ≤ buf.length
      · simp [vnConsume, h, ih]
      · simp [vnConsume, h, ih]

theorem processPair_rawBitBuffer (sha : List Nat → List Nat)
    (s : RNGState) (b1 b2 : Nat) :
    (processPair sha s b1 b2).rawBitBuffer = s.rawBitBuffer := by
  simp only [processPair]
  split_ifs <;> rfl

theorem processBit_raw_length (sha : List Nat → List Nat) (s : RNGState)
    (b : Nat) (h : s.rawBitBuffer.length ≤ 1) :
    (processBit sha s b).rawBitBuffer.length =
      (s.rawBitBuffer.length + 1) % 2 := by
  unfold processBit
  cases hb : s.rawBitBuffer with
  | nil => simp [hb]
  | cons c t =>
      have ht : t = [] := by
        rw [hb] at h; simpa using h
      subst ht
      simp [processPair_rawBitBuffer]

theorem processSamples_raw_length (sha : List Nat → List Nat) :
    ∀ (data : List Nat) (s : RNGState), s.rawBitBuffer.length ≤ 1 →
      (processSamples sha s data).rawBitBuffer.length =
        (s.rawBitBuffer.length + data.length) % 2 := by
  intro data
  induction data with
  | nil => intro s h; simp [processSamples]; omega
  | cons d ds ih =>
      intro s h
      have hstep := processBit_raw_length sha s (d &&& 1) h
      have hle : (processBit sha s (d &&& 1)).rawBitBuffer.length ≤ 1 := by
        rw [hstep]; omega
      have ihh := ih (processBit sha s (d &&& 1)) hle
      simp only [processSamples] at ihh ⊢
      rw [List.foldl_cons, ihh, hstep, List.length_cons]
      omega

/-- C2: splitting the raw sample stream across two successive
`processSamples` calls changes nothing — the whole pipeline state (hence
the debiased output and everything downstream) is the same as for a single
call; at the extractor level the carried buffer is passed to the second
call and the outputs concatenate; a call sequence of odd total bit count
leaves exactly one bit in `rawBitBuffer` (the buffer length is the parity
of the number of bits consumed). -/
theorem processSamples_split :
    (∀ (sha : List Nat → List Nat) (s : RNGState) (xs ys : List Nat),
      processSamples sha s (xs ++ ys) =
        processSamples sha (processSamples sha s xs) ys) ∧
    (∀ (buf xs ys : List Nat),
      vnConsume buf (xs ++ ys) =
        ((vnConsume (vnConsume buf xs).1 ys).1,
         (vnConsume buf xs).2 ++ (vnConsume (vnConsume buf xs).1 ys).2)) ∧
    (∀ (sha : List Nat → List Nat) (fb cn ua xs : List Nat),
      (processSamples sha ⟨[], fb, cn, ua⟩ xs).rawBitBuffer.length =
        xs.length % 2) := by
  refine ⟨?_, ?_, ?_⟩
  · intro sha s xs ys
    simp [processSamples, List.foldl_append]
  · intro buf xs ys
    exact vnConsume_append xs buf ys
  · intro sha fb cn ua xs
    have := processSamples_raw_length sha xs ⟨[], fb, cn, ua⟩ (by simp)
    simpa using this

/-- C3: `bitsToUint8` packs 8 bits MSB-first (the first bit received is
the most significant); the `finalBitBuffer` accumulator is cleared exactly
when its length reaches 8 after a pair is processed; the bits
[1,0,1,1,0,0,1,0] assemble to the byte 178. -/
theorem byte_assembly (b0 b1 b2 b3 b4 b5 b6 b7 : Nat)
    (h0 : b0 ≤ 1) (h1 : b1 ≤ 1) (h2 : b2 ≤ 1) (h3 : b3 ≤ 1)
    (h4 : b4 ≤ 1) (h5 : b5 ≤ 1) (h6 : b6 ≤ 1) (h7 : b7 ≤ 1) :
    bitsToUint8 [b0, b1, b2, b3, b4, b5, b6, b7] =
      b0 * 128 + b1 * 64 + b2 * 32 + b3 * 16 + b4 * 8 + b5 * 4 + b6 * 2 + b7 ∧
    (∀ (sha : List Nat → List Nat) (s : RNGState) (x1 x2 : Nat),
      (processPair sha s x1 x2).finalBitBuffer =
        (if (s.finalBitBuffer ++ vnEmit x1 x2).length = 8 then []
         else s.finalBitBuffer ++ vnEmit x1 x2)) ∧
    bitsToUint8 [1, 0, 1, 1, 0, 0, 1, 0] = 178 := by
  refine ⟨?_, ?_, by decide⟩
  · interval_cases b0 <;> interval_cases b1 <;> interval_cases b2 <;>
      interval_cases b3 <;> interval_cases b4 <;> interval_cases b5 <;>
      interval_cases b6 <;> interval_cases b7 <;> decide
  · intro sha s x1 x2
    simp only [processPair]
    split_ifs <;> rfl

/-- Witness for C3 at the concrete bits [1,0,1,1,0,0,1,0]. -/
theorem byte_assembly_witness :
    bitsToUint8 [1, 0, 1, 1, 0, 0, 1, 0] =
      1 * 128 + 0 * 64 + 1 * 32 + 1 * 16 + 0 * 8 + 0 * 4 + 1 * 2 + 0 ∧
    (∀ (sha : List Nat → List Nat) (s : RNGState) (x1 x2 : Nat),
      (processPair sha s x1 x2).finalBitBuffer =
        (if (s.finalBitBuffer ++ vnEmit x1 x2).length = 8 then []
         else s.finalBitBuffer ++ vnEmit x1 x2)) ∧
    bitsToUint8 [1, 0, 1, 1, 0, 0, 1, 0] = 178 :=
  byte_assembly 1 0 1 1 0 0 1 0 (by decide) (by decide) (by decide)
    (by decide) (by decide) (by decide) (by decide) (by decide)

theorem processBit_uintArray_cases (sha : List Nat → List Nat)
    (s : RNGState) (b : Nat) :
    (processBit sha s b).uintArray = s.uintArray ∨
    ∃ batch, (processBit sha s b).uintArray = s.uintArray ++ sha batch := by
  simp only [processBit, processPair]
  split_ifs <;> first | exact Or.inl rfl | exact Or.inr ⟨_, rfl⟩

/-- C4: on every pipeline step from a reachable batch (fewer than 1000
collected bytes), either no hashing happens and the pool `uintArray` is
untouched with the batch still under 1000 bytes, or the batch had exactly
999 bytes, the arriving byte completes a batch of exactly 1000 bytes,
precisely those bytes are hashed, the 32 digest bytes are appended to the
pool, and the batch is cleared to empty.  A digest is never computed over
a batch of fewer than 1000 bytes. -/
theorem batch_hash_step (sha : List Nat → List Nat)
    (hsha : ∀ x, (sha x).length = 32) (s : RNGState) (b : Nat)
    (hc : s.collectedNumbers.length ≤ 999) :
    ((processBit sha s b).uintArray = s.uintArray ∧
      (processBit sha s b).collectedNumbers.length ≤ 999) ∨
    (s.collectedNumbers.length = 999 ∧
      (processBit sha s b).collectedNumbers = [] ∧
      ∃ byte,
        (processBit sha s b).uintArray =
          s.uintArray ++ sha (s.collectedNumbers ++ [byte]) ∧
        (s.collectedNumbers ++ [byte]).length = 1000 ∧
        (processBit sha s b).uintArray.length = s.uintArray.length + 32) := by
  simp only [processBit, processPair]
  split_ifs with h1 h2 h3
  · -- pair processed, byte completed, batch full: the hashing step
    have hlen : (s.collectedNumbers ++
        [bitsToUint8 (s.finalBitBuffer ++
          vnEmit ((s.rawBitBuffer ++ [b]).getD 0 0)
            ((s.rawBitBuffer ++ [b]).getD 1 0))]).length = 1000 := by
      simp only [List.length_append, List.length_singleton] at h3 ⊢
      omega
    have h999 : s.collectedNumbers.length = 999 := by
      simp only [List.length_append, List.length_singleton] at hlen
      omega
    refine Or.inr ⟨h999, rfl, _, ?_, hlen, ?_⟩
    · rw [List.take_of_length_le (le_of_eq hlen)]
    · simp [hsha]
  · -- byte completed but batch still short of 1000
    refine Or.inl ⟨rfl, ?_⟩
    simp only [List.length_append, List.length_singleton] at h3 ⊢
    omega
  · exact Or.inl ⟨rfl, hc⟩
  · exact Or.inl ⟨rfl, hc⟩

/-- Witness for C4: one step from the freshly constructed state, with a
digest function returning 32 zero bytes. -/
theorem batch_hash_step_witness :
    ((processBit (fun _ => List.replicate 32 0) initialRNGState 0).uintArray =
        initialRNGState.uintArray ∧
      (processBit (fun _ => List.replicate 32 0) initialRNGState
          0).collectedNumbers.length ≤ 999) ∨
    (initialRNGState.collectedNumbers.length = 999 ∧
      (processBit (fun _ => List.replicate 32 0) initialRNGState
          0).collectedNumbers = [] ∧
      ∃ byte,
        (processBit (fun _ => List.replicate 32 0) initialRNGState
            0).uintArray =
          initialRNGState.uintArray ++
            List.replicate 32 0 ∧
        (initialRNGState.collectedNumbers ++ [byte]).length = 1000 ∧
        (processBit (fun _ => List.replicate 32 0) initialRNGState
            0).uintArray.length =
          initialRNGState.uintArray.length + 32) :=
  batch_hash_step (fun _ => List.replicate 32 0) (fun _ => by simp)
    initialRNGState 0 (by decide)

/-- The `FileGenerator` flags that `AudioRNG.stop` resets (script.js
lines 805-813). -/
structure FileGenState where
  isGenerating : Bool
  requiredDataSize : Nat
  deriving DecidableEq, Repr

/-- The application state visible to the pipeline and its consumers:
the `AudioRNG` buffers plus the file generator's in-flight request. -/
structure AppState where
  rng : RNGState
  fileGen : FileGenState
  deriving DecidableEq, Repr

/-- `AudioRNG.stop` (script.js lines 772-814) restricted to the modeled
state: it cancels capture and clears the file generator's in-flight
request, and never touches `uintArray` (the entropy pool). -/
def stop (a : AppState) : AppState :=
  { a with fileGen := { isGenerating := false, requiredDataSize := 0 } }

theorem processSamples_uintArray_append (sha : List Nat → List Nat) :
    ∀ (data : List Nat) (s : RNGState),
      ∃ t, (processSamples sha s data).uintArray = s.uintArray ++ t := by
  intro data
  induction data with
  | nil => intro s; exact ⟨[], by simp [processSamples]⟩
  | cons d ds ih =>
      intro s
      obtain ⟨t1, h1⟩ : ∃ t1, (processBit sha s (d &&& 1)).uintArray =
          s.uintArray ++ t1 := by
        rcases processBit_uintArray_cases sha s (d &&& 1) with h | ⟨batch, h⟩
        · exact ⟨[], by rw [List.append_nil]; exact h⟩
        · exact ⟨sha batch, h⟩
      obtain ⟨t2, h2⟩ := ih (processBit sha s (d &&& 1))
      refine ⟨t1 ++ t2, ?_⟩
      simp only [processSamples, List.foldl_cons] at h2 ⊢
      rw [h2, h1, List.append_assoc]

/-- C5: the entropy pool `uintArray` never shrinks — every
`processSamples` call only appends to it, `stop` leaves it untouched, and
the only way it becomes empty again is the reset performed by
(re)constructing the `AudioRNG` state, after which it is exactly empty. -/
theorem pool_monotone :
    (∀ (sha : List Nat → List Nat) (s : RNGState) (data : List Nat),
      ∃ t, (processSamples sha s data).uintArray = s.uintArray ++ t) ∧
    (∀ a : AppState, (stop a).rng.uintArray = a.rng.uintArray) ∧
    initialRNGState.uintArray = [] := by
  refine ⟨?_, ?_, rfl⟩
  · intro sha s data
    exact processSamples_uintArray_append sha data s
  · intro a; rfl

theorem processSamples_pool_mod (sha : List Nat → List Nat)
    (hsha : ∀ x, (sha x).length = 32) :
    ∀ (data : List Nat) (s : RNGState), s.uintArray.length % 32 = 0 →
      (processSamples sha s data).uintArray.length % 32 = 0 := by
  intro data
  induction data with
  | nil => intro s hs; simpa [processSamples] using hs
  | cons d ds ih =>
      intro s hs
      have hstep : (processBit sha s (d &&& 1)).uintArray.length % 32 = 0 := by
        rcases processBit_uintArray_cases sha s (d &&& 1) with h | ⟨batch, h⟩
        · rw [h]; exact hs
        · rw [h]; simp only [List.length_append, hsha]; omega
      have := ih (processBit sha s (d &&& 1)) hstep
      simpa [processSamples] using this

/-- C10: the entropy pool grows only by whole 32-byte digests, so between
pipeline steps its length is always a multiple of 32; consequently the
pool is either still empty or already holds at least the 32 bytes a
consumer's minimum-data check asks for. -/
theorem pool_digest_multiple (sha : List Nat → List Nat)
    (hsha : ∀ x, (sha x).length = 32) (s : RNGState) (data : List Nat)
    (hs : s.uintArray.length % 32 = 0) :
    (processSamples sha s data).uintArray.length % 32 = 0 ∧
    ((processSamples sha s data).uintArray.length = 0 ∨
      32 ≤ (processSamples sha s data).uintArray.length) := by
  have h := processSamples_pool_mod sha hsha data s hs
  exact ⟨h, by omega⟩

/-- Witness for C10: two samples from the fresh state with a digest
function returning 32 zero bytes. -/
theorem pool_digest_multiple_witness :
    (processSamples (fun _ => List.replicate 32 0) initialRNGState
        [0, 1]).uintArray.length % 32 = 0 ∧
    ((processSamples (fun _ => List.replicate 32 0) initialRNGState
        [0, 1]).uintArray.length = 0 ∨
      32 ≤ (processSamples (fun _ => List.replicate 32 0) initialRNGState
        [0, 1]).uintArray.length) :=
  pool_digest_multiple (fun _ => List.replicate 32 0) (fun _ => by simp)
    initialRNGState [0, 1] (by decide)

/-- `VisualizationManager.uint8ArrayToBits` (script.js lines 137-157):
each pool byte contributes its 8 bits MSB-first. -/
def uint8ArrayToBits (uintArray : List Nat) : List Nat :=
  (uintArray.map (fun byte =>
    [(byte >>> 7) &&& 1, (byte >>> 6) &&& 1, (byte >>> 5) &&& 1,
     (byte >>> 4) &&& 1, (byte >>> 3) &&& 1, (byte >>> 2) &&& 1,
     (byte >>> 1) &&& 1, byte &&& 1])).flatten

theorem uint8ArrayToBits_length (uintArray : List Nat) :
    (uint8ArrayToBits uintArray).length = 8 * uintArray.length := by
  induction uintArray with
  | nil => rfl
  | cons b bs ih =>
      simp only [uint8ArrayToBits, List.map_cons, List.flatten_cons,
        List.length_append, List.length_cons, List.length_nil,
        List.length_map] at ih ⊢
      omega

/-- The `VisualizationManager` state that `drawBitMatrix` reads and
writes (script.js lines 52-64): matrix dimensions, the cell buffer
`bitMatrixData`, the render cursor `lastBitCount`, the completion flag and
the refresh-cycle counter.  Canvas/ImageData objects and the wall-clock
throttling fields are not modeled; throttling enters as a boolean
parameter of `drawBitMatrix`. -/
structure VizState where
  matrixWidth : Nat
  matrixHeight : Nat
  bitMatrixData : List Nat
  lastBitCount : Nat
  isMatrixComplete : Bool
  refreshCycle : Nat
  deriving DecidableEq, Repr

/-- The renderer state as the constructor (lines 52-64) and
`resetBitMatrix` (lines 399-418) produce it for dimensions `w × h`. -/
def initViz (w h : Nat) : VizState :=
  { matrixWidth := w, matrixHeight := h,
    bitMatrixData := List.replicate (w * h) 0,
    lastBitCount := 0, isMatrixComplete := false, refreshCycle := 0 }

/-- `VisualizationManager.performFullRefresh` (script.js lines 258-279):
bumps the refresh counter, clears the completion flag, resets the cursor
to 0 and fills `bitMatrixData` with 0. -/
def performFullRefresh (v : VizState) : VizState :=
  { v with refreshCycle := v.refreshCycle + 1, isMatrixComplete := false,
           lastBitCount := 0,
           bitMatrixData := v.bitMatrixData.map (fun _ => 0) }

/-- `VisualizationManager.calculateOptimalChunkSize` (script.js lines
284-295): base chunk 2000; with adaptive pacing, a slow rolling average
(> 16 ms) halves it with floor 500 and a fast one (< 8 ms) grows it by
half with ceiling 5000.  The two float comparisons are abstracted into the
booleans `slow` and `fast`. -/
def calculateOptimalChunkSize (adaptive slow fast : Bool) : Nat :=
  if !adaptive then 2000
  else if slow then max 500 1000
  else if fast then min 5000 3000
  else 2000

/-- The loop of `VisualizationManager.updatePixelsBatch` (script.js lines
300-339): for each `bitIndex` in the half-open range, write
`bits[bitIndex]` (0 when past the end) into `bitMatrixData` at
`row * matrixWidth + col`, which is `bitIndex` itself — cells are
addressed absolutely, no row is ever shifted. -/
def setRange : List Nat → List Nat → Nat → Nat → List Nat
  | grid, _, _, 0 => grid
  | grid, bits, i, n + 1 => setRange (grid.set i (bits.getD i 0)) bits (i + 1) n

/-- `VisualizationManager.updatePixelsBatch` over the index range
`[startBitIndex, endBitIndex)`. -/
def updatePixelsBatch (grid bits : List Nat) (startBitIndex endBitIndex : Nat) :
    List Nat :=
  setRange grid bits startBitIndex (endBitIndex - startBitIndex)

/-- `VisualizationManager.drawBitMatrix` (script.js lines 163-224) on the
modeled state: throttle check, full-refresh check once the matrix is
complete and more bits exist, no-op check, then a chunk-bounded batch of
absolute-position cell writes and the cursor/completion update. -/
def drawBitMatrix (v : VizState) (uintArray : List Nat) (chunkSize : Nat)
    (throttled : Bool) : VizState :=
  if throttled then v
  else
    let bits := uint8ArrayToBits uintArray
    let currentBitCount := bits.length
    let maxMatrixBits := v.matrixWidth * v.matrixHeight
    if maxMatrixBits ≤ v.lastBitCount ∧ maxMatrixBits < currentBitCount then
      performFullRefresh v
    else if currentBitCount ≤ v.lastBitCount ∨ v.isMatrixComplete = true then v
    else
      let newBitsCount := min (currentBitCount - v.lastBitCount) chunkSize
      let startBitIndex := v.lastBitCount
      let endBitIndex := min (startBitIndex + newBitsCount) maxMatrixBits
      let nextBitCount := min endBitIndex currentBitCount
      { v with
        bitMatrixData :=
          updatePixelsBatch v.bitMatrixData bits startBitIndex endBitIndex,
        lastBitCount := nextBitCount,
        isMatrixComplete :=
          if maxMatrixBits ≤ nextBitCount then true else v.isMatrixComplete }

/-- Iterated renderer invocations on a fixed pool: invocation `k` uses
chunk size `chunks k` and throttle flag `thr k`. -/
def renderIter (uintArray : List Nat) (chunks : Nat → Nat)
    (thr : Nat → Bool) : Nat → VizState → VizState
  | 0, v => v
  | n + 1, v =>
      renderIter uintArray chunks thr n
        (drawBitMatrix v uintArray (chunks n) (thr n))

theorem drawBitMatrix_cursor_le (v : VizState) (uintArray : List Nat)
    (c : Nat) (t : Bool) (h : v.lastBitCount ≤ v.matrixWidth * v.matrixHeight) :
    (drawBitMatrix v uintArray c t).lastBitCount ≤
        v.matrixWidth * v.matrixHeight ∧
      (drawBitMatrix v uintArray c t).matrixWidth = v.matrixWidth ∧
      (drawBitMatrix v uintArray c t).matrixHeight = v.matrixHeight := by
  simp only [drawBitMatrix, performFullRefresh]
  split_ifs <;>
    first
      | exact ⟨h, rfl, rfl⟩
      | exact ⟨Nat.zero_le _, rfl, rfl⟩
      | (refine ⟨?_, rfl, rfl⟩; simp only []; omega)

/-- C6 fails on the code: with the constructor's 200 × 100 matrix and a
pool of 2528 bytes (20224 bits, more than the 20000 matrix cells), no
sequence of renderer invocations ever brings `lastBitCount` up to the
pool's total bit count — the cursor is forever confined to [0, 20000],
cycling through full refreshes. -/
theorem render_catchup_counterexample :
    ¬ ∃ (chunks : Nat → Nat) (thr : Nat → Bool) (n : Nat),
        (renderIter (List.replicate 2528 0) chunks thr n
            (initViz 200 100)).lastBitCount =
          8 * (List.replicate 2528 (0 : Nat)).length := by
  rintro ⟨chunks, thr, n, hn⟩
  have key : ∀ (m : Nat) (v : VizState),
      v.matrixWidth = 200 → v.matrixHeight = 100 → v.lastBitCount ≤ 20000 →
      (renderIter (List.replicate 2528 0) chunks thr m v).lastBitCount ≤
        20000 := by
    intro m
    induction m with
    | zero => intro v _ _ hle; simpa only [renderIter] using hle
    | succ k ih =>
        intro v hW hH hle
        have hstep := drawBitMatrix_cursor_le v (List.replicate 2528 0)
          (chunks k) (thr k) (by rw [hW, hH]; simpa using hle)
        simp only [renderIter]
        refine ih _ ?_ ?_ ?_
        · rw [hstep.2.1, hW]
        · rw [hstep.2.2, hH]
        · have := hstep.1
          rw [hW, hH] at this
          omega
  have hb := key n (initViz 200 100) rfl rfl (by exact Nat.zero_le _)
  rw [hn] at hb
  rw [List.length_replicate] at hb
  omega

theorem drawBitMatrix_progress (v : VizState) (uintArray : List Nat)
    (c : Nat)
    (hcur : v.lastBitCount < (uint8ArrayToBits uintArray).length)
    (hcomp : v.isMatrixComplete = false)
    (hmax : (uint8ArrayToBits uintArray).length ≤
      v.matrixWidth * v.matrixHeight) :
    (drawBitMatrix v uintArray c false).lastBitCount =
        v.lastBitCount +
          min ((uint8ArrayToBits uintArray).length - v.lastBitCount) c ∧
      (drawBitMatrix v uintArray c false).matrixWidth = v.matrixWidth ∧
      (drawBitMatrix v uintArray c false).matrixHeight = v.matrixHeight ∧
      ((drawBitMatrix v uintArray c false).isMatrixComplete = true →
        (drawBitMatrix v uintArray c false).lastBitCount =
          (uint8ArrayToBits uintArray).length) := by
  have h1 : ¬ (v.matrixWidth * v.matrixHeight ≤ v.lastBitCount ∧
      v.matrixWidth * v.matrixHeight <
        (uint8ArrayToBits uintArray).length) := by omega
  have h2 : ¬ ((uint8ArrayToBits uintArray).length ≤ v.lastBitCount ∨
      v.isMatrixComplete = true) := by
    rw [hcomp]
    simp only [Bool.false_eq_true, or_false]
    omega
  simp only [drawBitMatrix]
  rw [if_neg Bool.false_ne_true, if_neg h1, if_neg h2]
  refine ⟨?_, rfl, rfl, ?_⟩
  · simp only []
    omega
  · simp only []
    rw [hcomp]
    split_ifs with h3
    · intro _
      omega
    · intro hfalse
      exact hfalse.elim

theorem render_progress (uintArray : List Nat) (chunks : Nat → Nat)
    (hch : ∀ i, 1 ≤ chunks i) :
    ∀ (n : Nat) (v : VizState),
      (uint8ArrayToBits uintArray).length ≤
          v.matrixWidth * v.matrixHeight →
      v.lastBitCount ≤ (uint8ArrayToBits uintArray).length →
      (v.isMatrixComplete = true →
        v.lastBitCount = (uint8ArrayToBits uintArray).length) →
      (uint8ArrayToBits uintArray).length ≤ v.lastBitCount + n →
      (renderIter uintArray chunks (fun _ => false) n v).lastBitCount =
        (uint8ArrayToBits uintArray).length := by
  intro n
  induction n with
  | zero => intro v _ hle _ hn; simp only [renderIter]; omega
  | succ k ih =>
      intro v hmax hle hcomp hn
      by_cases hdone : (uint8ArrayToBits uintArray).length ≤ v.lastBitCount
      · -- cursor already caught up: the invocation is a no-op
        have hnoop : drawBitMatrix v uintArray (chunks k) false = v := by
          have h1 : ¬ (v.matrixWidth * v.matrixHeight ≤ v.lastBitCount ∧
              v.matrixWidth * v.matrixHeight <
                (uint8ArrayToBits uintArray).length) := by omega
          have h2 : (uint8ArrayToBits uintArray).length ≤ v.lastBitCount ∨
              v.isMatrixComplete = true := Or.inl hdone
          simp only [drawBitMatrix, Bool.false_eq_true, if_false, h1, h2,
            if_true]
        simp only [renderIter, hnoop]
        exact ih v hmax hle hcomp (by omega)
      · have hcur : v.lastBitCount < (uint8ArrayToBits uintArray).length := by
          omega
        have hcf : v.isMatrixComplete = false := by
          rcases Bool.eq_false_or_eq_true v.isMatrixComplete with h | h
          · exact absurd (hcomp h) (by omega)
          · exact h
        have hp := drawBitMatrix_progress v uintArray (chunks k) hcur hcf hmax
        simp only [renderIter]
        refine ih _ (by rw [hp.2.1, hp.2.2.1]; exact hmax) ?_ hp.2.2.2 ?_
        · rw [hp.1]; omega
        · rw [hp.1]
          have := hch k
          omega

/-- C6 amended: the catch-up guarantee holds exactly when the pool's
total bit count fits inside the matrix (at most
`matrixWidth * matrixHeight` cells).  Starting from a freshly reset
renderer, with unthrottled invocations whose chunk sizes are at least 1
(every value `calculateOptimalChunkSize` can return is), the cursor
`lastBitCount` reaches the pool's exact total bit count after at most one
invocation per bit; for larger pools the cursor instead cycles through
full refreshes forever (see the counterexample). -/
theorem render_catchup_bounded (uintArray : List Nat) (v : VizState)
    (chunks : Nat → Nat) (n : Nat)
    (hmax : 8 * uintArray.length ≤ v.matrixWidth * v.matrixHeight)
    (hv : v.lastBitCount = 0) (hc : v.isMatrixComplete = false)
    (hch : ∀ i, 1 ≤ chunks i) (hn : 8 * uintArray.length ≤ n) :
    (renderIter uintArray chunks (fun _ => false) n v).lastBitCount =
      8 * uintArray.length := by
  have hlen := uint8ArrayToBits_length uintArray
  rw [← hlen] at hmax hn ⊢
  exact render_progress uintArray chunks hch n v hmax (by omega)
    (fun h => absurd h (by rw [hc]; simp)) (by omega)

/-- Witness for the amended C6: a one-byte pool on a 4 × 2 matrix is fully
rendered after 8 unthrottled invocations. -/
theorem render_catchup_bounded_witness :
    (renderIter [0] (fun _ => 2000) (fun _ => false) 8
        (initViz 4 2)).lastBitCount = 8 * ([0] : List Nat).length :=
  render_catchup_bounded [0] (initViz 4 2) (fun _ => 2000) 8 (by decide)
    (by decide) (by decide) (fun _ => by show (1 : Nat) ≤ 2000; decide)
    (by decide)

/-- C7 fails on the code: on a 4 × 2 matrix, committing the rows
[1,0,1,0] and then [0,1,0,1] (pool byte 165 = 0b10100101) leaves the grid
rows top-to-bottom as [1,0,1,0] then [0,1,0,1] — the first committed row
stays at the top; nothing is shifted, so the claimed "newest at top"
result [0,1,0,1] then [1,0,1,0] does not occur. -/
theorem matrix_rows_counterexample :
    (drawBitMatrix (initViz 4 2) [165] 2000 false).bitMatrixData =
      [1, 0, 1, 0, 0, 1, 0, 1] ∧
    (drawBitMatrix (initViz 4 2) [165] 2000 false).bitMatrixData ≠
      [0, 1, 0, 1, 1, 0, 1, 0] := by
  decide

/-- C7 amended: rows are written in place at successive absolute row
indices starting from the top — committing [1,0,1,0] and then [0,1,0,1]
on a 4 × 2 matrix yields grid rows top-to-bottom [1,0,1,0] then
[0,1,0,1]; no row is shifted and nothing falls off an edge (once the
matrix fills, a later invocation with more data clears it entirely via
`performFullRefresh` instead). -/
theorem matrix_rows_inplace :
    (drawBitMatrix (initViz 4 2) [165] 2000 false).bitMatrixData.take 4 =
      [1, 0, 1, 0] ∧
    (drawBitMatrix (initViz 4 2) [165] 2000 false).bitMatrixData.drop 4 =
      [0, 1, 0, 1] ∧
    (drawBitMatrix (initViz 4 2) [165] 2000 false).isMatrixComplete = true := by
  decide

/-- The semantics of `parseInt(el.value) || d`: a non-parsable value
(`none`, for `NaN`) and a parsed 0 both fall back to the default `d`. -/
def parseOr (v : Option Int) (d : Int) : Int :=
  match v with
  | none => d
  | some x => if x = 0 then d else x

/-- `Math.max(8, Math.min(64, parseInt(...) || 16))` — the password
length clamp (script.js line 456). -/
def clampPwLength (v : Option Int) : Int :=
  max 8 (min 64 (parseOr v 16))

/-- `Math.max(1, Math.min(10000, parseInt(...) || 100))` — the number
count clamp (script.js line 990). -/
def clampNumCount (v : Option Int) : Int :=
  max 1 (min 10000 (parseOr v 100))

/-- `Math.max(1, Math.min(10485760, parseInt(...) || 1024))` — the file
size clamp (script.js line 850), as the byte count it denotes. -/
def clampFileSize (v : Option Int) : Nat :=
  (max 1 (min 10485760 (parseOr v 1024))).toNat

/-- The four selectable character sets (script.js lines 446-449). -/
def UPPER_CHARS : List Char := "ABCDEFGHIJKLMNOPQRSTUVWXYZ".toList

/-- Lowercase character set (script.js line 447). -/
def LOWER_CHARS : List Char := "abcdefghijklmnopqrstuvwxyz".toList

/-- Digit character set (script.js line 448). -/
def DIGIT_CHARS : List Char := "0123456789".toList

/-- Symbol character set (script.js line 449). -/
def SYMBOL_CHARS : List Char := "!@#$%^&*()-_=+[]\x7b\x7d;:,.<>?".toList

/-- The concatenated charset the checkbox flags select. -/
def charsetOf (up lo nu sy : Bool) : List Char :=
  (if up then UPPER_CHARS else []) ++ (if lo then LOWER_CHARS else []) ++
    (if nu then DIGIT_CHARS else []) ++ (if sy then SYMBOL_CHARS else [])

/-- Outcome of `PasswordGenerator.generatePassword`: the two status
messages written to the password box, or a generated password. -/
inductive PwResult where
  | insufficient
  | emptyCharset
  | ok (password : List Char)
  deriving DecidableEq, Repr

/-- One character of the password loop (script.js lines 459-462):
`r = uintArray[(i + len - pwLength) % len]`, `charset[r % charset.length]`.
JavaScript `%` truncates toward zero (`Int.tmod`); a negative index reads
`undefined` and appends the string "undefined". -/
def pwChar (pool : List Nat) (charset : List Char) (pwLength i : Nat) :
    List Char :=
  let len : Int := pool.length
  let idx : Int := Int.tmod ((i : Int) + len - pwLength) len
  if 0 ≤ idx then
    [charset.getD ((pool.getD idx.toNat 0) % charset.length) default]
  else
    "undefined".toList

/-- `PasswordGenerator.generatePassword` (script.js lines 439-465). -/
def generatePassword (pool : List Nat) (up lo nu sy : Bool)
    (lenInput : Option Int) : PwResult :=
  if pool.length < 32 then .insufficient
  else
    let charset := charsetOf up lo nu sy
    if charset.length = 0 then .emptyCharset
    else
      let pwLength := (clampPwLength lenInput).toNat
      .ok (((List.range pwLength).map (pwChar pool charset pwLength)).flatten)

/-- Outcome of `RandomNumberGenerator.generateNumbers`: the two status
messages, or the generated numbers (before formatting). -/
inductive NumResult where
  | insufficient
  | minMaxError
  | ok (numbers : List Int)
  deriving DecidableEq, Repr

/-- `RandomNumberGenerator.generateNumbers` (script.js lines 983-1027),
up to the pure number list (display formatting not modeled). -/
def generateNumbers (pool : List Nat) (countInput minInput maxInput : Option Int) :
    NumResult :=
  if pool.length < 32 then .insufficient
  else
    let count := (clampNumCount countInput).toNat
    let mn := parseOr minInput 0
    let mx := parseOr maxInput 255
    if mx ≤ mn then .minMaxError
    else
      .ok ((List.range count).map (fun i =>
        mn + Int.tmod (pool.getD (i % pool.length) 0) (mx - mn + 1)))

/-- Outcome of `FileGenerator.generateFile`: either the collecting-data
status (pool still short of the requested size) or the generated bytes. -/
inductive FileResult where
  | collecting (required : Nat)
  | ok (data : List Nat)
  deriving DecidableEq, Repr

/-- `FileGenerator.createFileFromData` (script.js lines 884-907): the
first `fileSize` pool bytes. -/
def createFileFromData (pool : List Nat) (fileSize : Nat) : List Nat :=
  (List.range fileSize).map (fun i => pool.getD i 0)

/-- `FileGenerator.generateFile` (script.js lines 849-876). -/
def generateFile (pool : List Nat) (sizeInput : Option Int) : FileResult :=
  let fileSize := clampFileSize sizeInput
  if pool.length < fileSize then .collecting fileSize
  else .ok (createFileFromData pool fileSize)

/-- C8: each consumer called before the pool holds enough bytes for its
request (32 for passwords and numbers, the clamped file size for files)
reports its distinct insufficient-data status and generates nothing. -/
theorem insufficient_data_status :
    (∀ (pool : List Nat) (up lo nu sy : Bool) (li : Option Int),
      pool.length < 32 →
        generatePassword pool up lo nu sy li = PwResult.insufficient) ∧
    (∀ (pool : List Nat) (c mn mx : Option Int),
      pool.length < 32 →
        generateNumbers pool c mn mx = NumResult.insufficient) ∧
    (∀ (pool : List Nat) (sz : Option Int),
      pool.length < clampFileSize sz →
        generateFile pool sz = FileResult.collecting (clampFileSize sz)) := by
  refine ⟨?_, ?_, ?_⟩
  · intro pool up lo nu sy li h
    simp [generatePassword, h]
  · intro pool c mn mx h
    simp [generateNumbers, h]
  · intro pool sz h
    simp [generateFile, h]

/-- Witness for C8 on the empty pool. -/
theorem insufficient_data_status_witness :
    generatePassword [] true true true true (some 16) =
        PwResult.insufficient ∧
      generateNumbers [] (some 100) (some 0) (some 255) =
        NumResult.insufficient ∧
      generateFile [] (some 1024) =
        FileResult.collecting (clampFileSize (some 1024)) :=
  ⟨insufficient_data_status.1 [] true true true true (some 16) (by decide),
   insufficient_data_status.2.1 [] (some 100) (some 0) (some 255) (by decide),
   insufficient_data_status.2.2 [] (some 1024) (by decide)⟩

/-- C9: each numeric configuration input is clamped to its documented
bounds (password length to [8,64], number count to [1,10000], file size
to [1,10485760]) instead of being rejected, while the two unsatisfiable
configurations — no character set selected, and min ≥ max — produce their
explicit error status whenever the code reaches the check, and in no case
produce a password or numbers. -/
theorem config_clamping :
    (∀ v : Option Int, 8 ≤ clampPwLength v ∧ clampPwLength v ≤ 64) ∧
    (∀ v : Option Int, 1 ≤ clampNumCount v ∧ clampNumCount v ≤ 10000) ∧
    (∀ v : Option Int, 1 ≤ clampFileSize v ∧ clampFileSize v ≤ 10485760) ∧
    (∀ (pool : List Nat) (li : Option Int), 32 ≤ pool.length →
      generatePassword pool false false false false li =
        PwResult.emptyCharset) ∧
    (∀ (pool : List Nat) (li : Option Int) (pw : List Char),
      generatePassword pool false false false false li ≠ PwResult.ok pw) ∧
    (∀ (pool : List Nat) (c mn mx : Option Int), 32 ≤ pool.length →
      parseOr mx 255 ≤ parseOr mn 0 →
        generateNumbers pool c mn mx = NumResult.minMaxError) ∧
    (∀ (pool : List Nat) (c mn mx : Option Int) (ns : List Int),
      parseOr mx 255 ≤ parseOr mn 0 →
        generateNumbers pool c mn mx ≠ NumResult.ok ns) := by
  refine ⟨?_, ?_, ?_, ?_, ?_, ?_, ?_⟩
  · intro v; unfold clampPwLength; omega
  · intro v; unfold clampNumCount; omega
  · intro v; unfold clampFileSize; omega
  · intro pool li h
    have h32 : ¬ pool.length < 32 := by omega
    simp [generatePassword, h32, charsetOf]
  · intro pool li pw
    by_cases h : pool.length < 32 <;>
      simp [generatePassword, h, charsetOf]
  · intro pool c mn mx h hmm
    have h32 : ¬ pool.length < 32 := by omega
    simp [generateNumbers, h32, hmm]
  · intro pool c mn mx ns hmm
    by_cases h : pool.length < 32 <;>
      simp [generateNumbers, h, hmm]

/-- Witness for C9 at concrete inputs: an out-of-range length, count of
0 (falls back then clamps), an oversized file request, no charset
selected, and min 9 ≥ max 3. -/
theorem config_clamping_witness :
    (8 ≤ clampPwLength (some 1000) ∧ clampPwLength (some 1000) ≤ 64) ∧
      (1 ≤ clampNumCount (some 0) ∧ clampNumCount (some 0) ≤ 10000) ∧
      (1 ≤ clampFileSize (some 99999999) ∧
        clampFileSize (some 99999999) ≤ 10485760) ∧
      generatePassword (List.replicate 32 0) false false false false
          (some 16) = PwResult.emptyCharset ∧
      generateNumbers (List.replicate 32 0) (some 5) (some 9) (some 3) =
        NumResult.minMaxError :=
  ⟨config_clamping.1 (some 1000),
   config_clamping.2.1 (some 0),
   config_clamping.2.2.1 (some 99999999),
   config_clamping.2.2.2.1 (List.replicate 32 0) (some 16) (by decide),
   config_clamping.2.2.2.2.2.1 (List.replicate 32 0) (some 5) (some 9)
     (some 3) (by decide) (by decide)⟩

end RNG
